/-
  Verification of the valet secret-storage core.

  This file gives a shallow embedding of the core of the valet password
  manager (src/encrypt.rs, src/user.rs, src/lot.rs, src/record.rs and the
  db row modules) and proves the behavioural claims about it.

  Modelling conventions:
  * Byte strings (Rust `Vec<u8>`, `&[u8]`) are `List Nat`.
  * The external AEAD cipher (aes-siv / aes-gcm-siv) is modelled as an
    ideal symbolic cipher: the ciphertext is an injective encoding of
    (key bytes, nonce, plaintext), and decryption succeeds exactly when
    the stored key and nonce match.  This captures the authenticated
    round-trip contract the code relies on.
  * The external KDF (argon2) is modelled, following the spec, as a
    deterministic collision-free function of (password, salt) that fails
    only on resource exhaustion (never, in the model).
  * The external codecs (bitcode serialization, snap framed compression)
    are modelled as concrete injective encoders with partial inverses.
  * The system random source `OsRng` is modelled as a counter state
    threaded explicitly through every operation that draws randomness;
    a draw of `w` bytes yields the counter in little-endian base 256.
  * The sqlite pool is modelled as an in-memory table store with a
    `connected` flag; a dropped connection makes every statement fail,
    which is the model of the sqlx error path.
  * Identifiers (`Uuid`) are modelled as naturals drawn from the random
    source; their canonical string form is modelled by the number itself,
    so `to_string`/`parse_str` are the identity and never fail.
-/
import Mathlib

deriving instance DecidableEq for Except

namespace Valet

/-- Byte strings: Rust `Vec<u8>` / `&[u8]`. -/
abbrev Bytes := List Nat

/-- Length-prefixed framing of a byte string, used by the symbolic models
of the external codecs (AEAD ciphertext layout, snap frame). -/
def frame (l : Bytes) : Bytes := l.length :: l

/-- Inverse of `frame` on a prefix: reads one length-prefixed chunk and
returns it together with the remaining bytes. -/
def unframe (buf : Bytes) : Option (Bytes × Bytes) :=
  match buf with
  | [] => none
  | n :: rest => if n ≤ rest.length then some (rest.take n, rest.drop n) else none

/-- `NONCE_SIZE` from src/encrypt.rs. -/
def NONCE_SIZE : Nat := 16

/-- `SALT_SIZE` from src/encrypt.rs (128 bits). -/
def SALT_SIZE : Nat := 128 / 8

/-- The argon2 crate's minimum salt length (RFC 9106): a salt shorter
than 8 bytes is rejected by `hash_password_into` with SaltTooShort. -/
def MIN_SALT_LEN : Nat := 8

/-- Aes256Siv key size in bytes (512-bit key, 256-bit security),
from src/encrypt.rs. -/
def KEY_SIZE : Nat := 64

/-- Little-endian base-256 rendering of a natural number into a fixed
number of bytes.  Model of filling a fixed-width buffer from a counter. -/
def natToBytesLE : Nat → Nat → Bytes
  | 0, _ => []
  | w + 1, n => n % 256 :: natToBytesLE w (n / 256)

/-- The system random source, modelled as an ideal non-repeating stream:
a counter advanced on every draw.  Model of `rand_core::OsRng`. -/
structure OsRng where
  counter : Nat
deriving DecidableEq, Repr

/-- `OsRng.fill_bytes` into a buffer of `w` bytes. -/
def OsRng.fillBytes (rng : OsRng) (w : Nat) : Bytes × OsRng :=
  (natToBytesLE w rng.counter, ⟨rng.counter + 1⟩)

/-- `Encrypted` from src/encrypt.rs: some encrypted data together with
the nonce it was encrypted under. -/
structure Encrypted where
  data : Bytes
  nonce : Bytes
deriving DecidableEq, Repr

instance : Inhabited Encrypted := ⟨⟨[], []⟩⟩

/-- Errors of src/encrypt.rs (`encrypt::Error`). -/
inductive EncError where
  | keyDerivation (msg : String)
  | encryption (msg : String)
  | decryption (msg : String)
deriving DecidableEq, Repr

/-- Errors of src/uuid.rs (`uuid::Error`), raised when an identifier
fails to parse from its stored text.  In the model identifiers are
naturals and parsing never fails, so this error never occurs. -/
inductive UuidError where
  | malformed
deriving DecidableEq, Repr

/-- Errors of src/db/mod.rs (`db::Error`), covering the sqlx error
paths the core observes: a statement that matched no row, a broken
connection, and a violated uniqueness constraint. -/
inductive DbError where
  | rowNotFound
  | connection
  | uniqueViolation
deriving DecidableEq, Repr

/-- Symbolic AEAD sealing: the ciphertext is an injective encoding of the
key bytes, the nonce, and the plaintext.  Model of
`Aes256SivAead::encrypt` (the external cipher crate). -/
def aeadSeal (key nonce plaintext : Bytes) : Bytes :=
  frame key ++ (frame nonce ++ plaintext)

/-- Symbolic AEAD opening: succeeds exactly when the ciphertext was
sealed under the same key and nonce.  Model of
`Aes256SivAead::decrypt`. -/
def aeadOpen (key nonce buf : Bytes) : Option Bytes :=
  match unframe buf with
  | none => none
  | some (k, rest) =>
    match unframe rest with
    | none => none
    | some (n, plaintext) =>
      if k = key ∧ n = nonce then some plaintext else none

/-- `Key<T>` from src/encrypt.rs: a symmetric key tagged at the type
level with the entity that owns it.  The raw key material is its bytes. -/
structure Key (T : Type) where
  bytes : Bytes

instance {T : Type} : DecidableEq (Key T) := fun a b =>
  if h : a.bytes = b.bytes then
    .isTrue (by cases a; cases b; simpa using h)
  else
    .isFalse (by intro hab; exact h (congrArg Key.bytes hab))

/-- The model of the argon2 KDF output: deterministic in (password, salt)
and collision-free (the spec's key-independence idealization). -/
def kdf (password salt : Bytes) : Bytes := frame password ++ salt

/-- A password, modelled by its byte content (`Password::as_bytes`). -/
abbrev Password := Bytes

/-- `Key::new` from src/encrypt.rs: generate a fresh random key.
(Called `Key::generate` by some iterations of src/lot.rs.) -/
def Key.new (T : Type) (rng : OsRng) : Key T × OsRng :=
  let (bytes, rng) := rng.fillBytes KEY_SIZE
  (⟨bytes⟩, rng)

/-- `Key::from_password` from src/encrypt.rs: derive a key from a
password and a salt via the KDF.  The argon2 crate rejects salts
shorter than its 8-byte minimum with SaltTooShort (surfaced by the code
as a KeyDerivation error); on admissible salts the KDF is modelled as
the deterministic collision-free function `kdf`, whose only remaining
failure is resource exhaustion — never, in the model. -/
def Key.fromPassword (T : Type) (password : Password) (salt : Bytes) :
    Except EncError (Key T) :=
  if salt.length < MIN_SALT_LEN then
    .error (.keyDerivation "salt too short")
  else .ok ⟨kdf password salt⟩

/-- `Key::from_bytes` from src/encrypt.rs. -/
def Key.fromBytes (T : Type) (bytes : Bytes) : Key T := ⟨bytes⟩

/-- `Key::as_bytes` from src/encrypt.rs. -/
def Key.asBytes {T : Type} (k : Key T) : Bytes := k.bytes

/-- `Key::generate_salt` from src/encrypt.rs. -/
def Key.generateSalt (rng : OsRng) : Bytes × OsRng :=
  rng.fillBytes SALT_SIZE

/-- `Key::encrypt` from src/encrypt.rs: draw a fresh nonce from the
random source, then seal the plaintext. -/
def Key.encrypt {T : Type} (k : Key T) (plaintext : Bytes) (rng : OsRng) :
    Except EncError Encrypted × OsRng :=
  let (nonceBytes, rng) := rng.fillBytes NONCE_SIZE
  (.ok ⟨aeadSeal k.bytes nonceBytes plaintext, nonceBytes⟩, rng)

/-- `Key::decrypt` from src/encrypt.rs. -/
def Key.decrypt {T : Type} (k : Key T) (encrypted : Encrypted) :
    Except EncError Bytes :=
  match aeadOpen k.bytes encrypted.nonce encrypted.data with
  | some plaintext => .ok plaintext
  | none => .error (.decryption "aead::Error")

/-- The byte content of a string (`str::as_bytes`, modulo the
byte-vs-scalar-value distinction the claims never observe). -/
def strBytes (s : String) : Bytes := s.toList.map Char.toNat

/-- Serialize one string field, length-prefixed. -/
def encStr (s : String) : Bytes := frame (strBytes s)

/-- Deserialize one string field, returning the remaining bytes. -/
def decStr (buf : Bytes) : Option (String × Bytes) :=
  match unframe buf with
  | none => none
  | some (b, rest) => some (String.mk (b.map Char.ofNat), rest)

/-- Serialize an attribute map (the `HashMap<String, String>` of a
Domain record, modelled as its list of entries). -/
def encPairs (ps : List (String × String)) : Bytes :=
  (ps.map fun p => encStr p.1 ++ encStr p.2).flatten

/-- Deserialize `n` attribute entries, returning the remaining bytes. -/
def decPairs : Nat → Bytes → Option (List (String × String) × Bytes)
  | 0, buf => some ([], buf)
  | n + 1, buf =>
    match decStr buf with
    | none => none
    | some (k, buf) =>
      match decStr buf with
      | none => none
      | some (v, buf) =>
        match decPairs n buf with
        | none => none
        | some (ps, buf) => some ((k, v) :: ps, buf)

/-- `RecordData` from src/record.rs: the content of one secret record,
either a label with a map of named attributes or a label with a single
value.  The `HashMap<String, String>` is modelled as its entry list. -/
inductive RecordData where
  | domain (label : String) (attributes : List (String × String))
  | plain (label : String) (value : String)
deriving DecidableEq, Repr

/-- `RecordData::label` from src/record.rs. -/
def RecordData.label : RecordData → String
  | .domain s _ => s
  | .plain s _ => s

/-- Errors of src/record.rs (`record::Error`).  The payloads of the
external-crate variants are dropped in the model. -/
inductive RecordError where
  | missingLot
  | uuid (e : UuidError)
  | database (e : DbError)
  | encoding
  | compression
  | encryption (e : EncError)
deriving DecidableEq, Repr

/-- `RecordData::encode` from src/record.rs: `bitcode::encode`, modelled
as a concrete tag-and-length-prefix serialization. -/
def RecordData.encode : RecordData → Bytes
  | .domain label attributes =>
    0 :: (encStr label ++ attributes.length :: encPairs attributes)
  | .plain label value => 1 :: (encStr label ++ encStr value)

/-- The partial inverse of `RecordData.encode` (`bitcode::decode`). -/
def decodeCore (buf : Bytes) : Option RecordData :=
  match buf with
  | 0 :: rest =>
    (match decStr rest with
     | some (label, n :: rest) =>
       (match decPairs n rest with
        | some (attributes, []) => some (.domain label attributes)
        | _ => none)
     | _ => none)
  | 1 :: rest =>
    (match decStr rest with
     | some (label, rest) =>
       (match decStr rest with
        | some (value, []) => some (.plain label value)
        | _ => none)
     | _ => none)
  | _ => none

/-- `RecordData::decode` from src/record.rs. -/
def RecordData.decode (buf : Bytes) : Except RecordError RecordData :=
  match decodeCore buf with
  | some d => .ok d
  | none => .error .encoding

/-- The snap framed compression, modelled as a lossless frame around the
input bytes (`snap::read::FrameEncoder`). -/
def snapCompress (l : Bytes) : Bytes := frame l

/-- The snap framed decompression (`snap::read::FrameDecoder`), the
partial inverse of `snapCompress`. -/
def snapDecompress (buf : Bytes) : Option Bytes :=
  match unframe buf with
  | some (c, []) => some c
  | _ => none

/-- `RecordData::compress` from src/record.rs: compress the encoded
payload. -/
def RecordData.compress (d : RecordData) : Except RecordError Bytes :=
  .ok (snapCompress d.encode)

/-- `RecordData::decompress` from src/record.rs: decompress, then
decode. -/
def RecordData.decompress (buf : Bytes) : Except RecordError RecordData :=
  match snapDecompress buf with
  | none => .error .compression
  | some dec => RecordData.decode dec

/-- `Record` from src/record.rs: one secret entry, holding its owning
lot's id, its own id, and its payload. -/
structure Record where
  lot : Nat
  uuid : Nat
  data : RecordData
deriving DecidableEq, Repr

/-- `Lot` from src/lot.rs: a named collection of records with its own
lot key.  (A nested inductive, because the key is tagged with `Lot`
itself.) -/
inductive Lot where
  | mk (uuid : Nat) (name : String) (records : List Record) (key : Key Lot) : Lot

/-- `Lot::uuid`. -/
def Lot.uuid : Lot → Nat
  | .mk u _ _ _ => u

/-- `Lot::name`. -/
def Lot.name : Lot → String
  | .mk _ n _ _ => n

/-- `Lot::records`. -/
def Lot.records : Lot → List Record
  | .mk _ _ rs _ => rs

/-- `Lot::key`. -/
def Lot.key : Lot → Key Lot
  | .mk _ _ _ k => k

/-- Assignment to the `key` field (`lot.key = ...`), as done by key
rotation. -/
def Lot.withKey : Lot → Key Lot → Lot
  | .mk u n rs _, k => .mk u n rs k

/-- Assignment to the `records` field. -/
def Lot.withRecords : Lot → List Record → Lot
  | .mk u n _ k, rs => .mk u n rs k

instance : DecidableEq Lot := fun a b =>
  match a, b with
  | .mk u₁ n₁ rs₁ k₁, .mk u₂ n₂ rs₂ k₂ =>
    if h : u₁ = u₂ ∧ n₁ = n₂ ∧ rs₁ = rs₂ ∧ k₁ = k₂ then
      .isTrue (by obtain ⟨h₁, h₂, h₃, h₄⟩ := h; rw [h₁, h₂, h₃, h₄])
    else
      .isFalse (by intro hab; injection hab with h₁ h₂ h₃ h₄; exact h ⟨h₁, h₂, h₃, h₄⟩)

/-- `RecordData::encrypt` from src/record.rs: compress, then encrypt
under the lot key. -/
def RecordData.encrypt (d : RecordData) (key : Key Lot) (rng : OsRng) :
    Except RecordError Encrypted × OsRng :=
  match d.compress with
  | .error e => (.error e, rng)
  | .ok compressed =>
    match key.encrypt compressed rng with
    | (.error e, rng) => (.error (.encryption e), rng)
    | (.ok enc, rng) => (.ok enc, rng)

/-- `RecordData::decrypt` from src/record.rs: decrypt under the lot key,
then decompress and decode. -/
def RecordData.decrypt (buf : Encrypted) (key : Key Lot) :
    Except RecordError RecordData :=
  match key.decrypt buf with
  | .error e => .error (.encryption e)
  | .ok decrypted => RecordData.decompress decrypted

/-- `Uuid::now_v7` (src/uuid.rs `Uuid::now`): a fresh time-ordered
identifier, drawn from the random source in the model. -/
def Uuid.now (rng : OsRng) : Nat × OsRng :=
  (rng.counter, ⟨rng.counter + 1⟩)

/-- `User` from src/user.rs: username, salt, encrypted validation
marker, and the derived user key. -/
inductive User where
  | mk (username : String) (salt : Bytes) (validation : Encrypted) (key : Key User) : User

/-- `User::username`. -/
def User.username : User → String
  | .mk u _ _ _ => u

/-- The `salt` field of `User`. -/
def User.salt : User → Bytes
  | .mk _ s _ _ => s

/-- The `validation` field of `User`. -/
def User.validation : User → Encrypted
  | .mk _ _ v _ => v

/-- `User::key`. -/
def User.key : User → Key User
  | .mk _ _ _ k => k

instance : DecidableEq User := fun a b =>
  match a, b with
  | .mk u₁ s₁ v₁ k₁, .mk u₂ s₂ v₂ k₂ =>
    if h : u₁ = u₂ ∧ s₁ = s₂ ∧ v₁ = v₂ ∧ k₁ = k₂ then
      .isTrue (by obtain ⟨h₁, h₂, h₃, h₄⟩ := h; rw [h₁, h₂, h₃, h₄])
    else
      .isFalse (by intro hab; injection hab with h₁ h₂ h₃ h₄; exact h ⟨h₁, h₂, h₃, h₄⟩)

/-- Errors of src/lot.rs (`lot::Error`). -/
inductive LotError where
  | uuid (e : UuidError)
  | encrypt (e : EncError)
  | record (e : RecordError)
  | database (e : DbError)
deriving DecidableEq, Repr

/-- Errors of src/user.rs (`user::Error`).  `invalid` is the
`InvalidCredentials` of the spec; the `Lot` variant is omitted because
no embedded operation produces it. -/
inductive UserError where
  | invalid
  | saltError
  | encrypt (e : EncError)
  | database (e : DbError)
deriving DecidableEq, Repr

/-- A row of the `users` table (src/db/users.rs `SqlUser`). -/
structure SqlUser where
  username : String
  salt : Bytes
  validationData : Bytes
  validationNonce : Bytes
deriving DecidableEq, Repr

/-- A row of the `lots` table (src/db/lots.rs `SqlLot`, in the shape
src/lot.rs constructs: uuid and name only). -/
structure SqlLot where
  uuid : Nat
  name : String
deriving DecidableEq, Repr

/-- A row of the `user_lot_keys` table
(src/db/user_lot_keys.rs `SqlUserLotKey`). -/
structure SqlUserLotKey where
  username : String
  lot : Nat
  data : Bytes
  nonce : Bytes
deriving DecidableEq, Repr

/-- A row of the `records` table (src/db/records.rs `SqlRecord`). -/
structure SqlRecord where
  lot : Nat
  uuid : Nat
  data : Bytes
  nonce : Bytes
deriving DecidableEq, Repr

/-- `Database` from src/db/mod.rs: the sqlite pool, modelled as
in-memory tables plus a connection-health flag. -/
structure Database where
  connected : Bool
  users : List SqlUser
  lots : List SqlLot
  userLotKeys : List SqlUserLotKey
  records : List SqlRecord
deriving DecidableEq, Repr

/-- `SqlUser::insert` (src/db/users.rs): plain INSERT with the
username-uniqueness constraint of the schema. -/
def SqlUser.insert (u : SqlUser) (db : Database) :
    Except DbError (SqlUser × Database) :=
  if ¬db.connected then .error .connection
  else if db.users.any (fun r => r.username = u.username) then
    .error .uniqueViolation
  else .ok (u, { db with users := db.users ++ [u] })

/-- `SqlUser::select` (src/db/users.rs): fetch one row by username, or
the sqlx row-not-found error. -/
def SqlUser.select (db : Database) (username : String) :
    Except DbError SqlUser :=
  if ¬db.connected then .error .connection
  else
    match db.users.find? (fun r => r.username = username) with
    | some r => .ok r
    | none => .error .rowNotFound

/-- `SqlLot::upsert` (src/db/lots.rs): INSERT, or on a uuid conflict
update only the name. -/
def SqlLot.upsert (l : SqlLot) (db : Database) :
    Except DbError (SqlLot × Database) :=
  if ¬db.connected then .error .connection
  else if db.lots.any (fun r => r.uuid = l.uuid) then
    .ok (l, { db with
      lots := db.lots.map fun r =>
        if r.uuid = l.uuid then { r with name := l.name } else r })
  else .ok (l, { db with lots := db.lots ++ [l] })

/-- `SqlLot::select_by_name` (src/db/lots.rs): fetch one row by name,
or the sqlx row-not-found error. -/
def SqlLot.selectByName (db : Database) (name : String) :
    Except DbError SqlLot :=
  if ¬db.connected then .error .connection
  else
    match db.lots.find? (fun r => r.name = name) with
    | some r => .ok r
    | none => .error .rowNotFound

/-- `SqlUserLotKey::upsert` (src/db/user_lot_keys.rs): INSERT, or on a
(username, lot) conflict update the wrapped key data and nonce. -/
def SqlUserLotKey.upsert (k : SqlUserLotKey) (db : Database) :
    Except DbError (SqlUserLotKey × Database) :=
  if ¬db.connected then .error .connection
  else if db.userLotKeys.any
      (fun r => r.username = k.username ∧ r.lot = k.lot) then
    .ok (k, { db with
      userLotKeys := db.userLotKeys.map fun r =>
        if r.username = k.username ∧ r.lot = k.lot then
          { r with data := k.data, nonce := k.nonce }
        else r })
  else .ok (k, { db with userLotKeys := db.userLotKeys ++ [k] })

/-- `SqlUserLotKey::select` (src/db/user_lot_keys.rs): fetch one row by
(username, lot), or the sqlx row-not-found error. -/
def SqlUserLotKey.select (db : Database) (username : String) (lot : Nat) :
    Except DbError SqlUserLotKey :=
  if ¬db.connected then .error .connection
  else
    match db.userLotKeys.find?
        (fun r => r.username = username ∧ r.lot = lot) with
    | some r => .ok r
    | none => .error .rowNotFound

/-- Modelled from the spec: the `records` table upsert.  The repository
ships the plain INSERT of src/db/records.rs, but the migrations that fix
the table's conflict behaviour are not part of the sources; the spec
(§6) specifies `upsert_record{lot_id, id, data, nonce}` keyed by the
record id, which is what the re-save in `Lot::save` relies on. -/
def SqlRecord.upsert (s : SqlRecord) (db : Database) :
    Except DbError (SqlRecord × Database) :=
  if ¬db.connected then .error .connection
  else if db.records.any (fun r => r.uuid = s.uuid) then
    .ok (s, { db with
      records := db.records.map fun r =>
        if r.uuid = s.uuid then
          { r with lot := s.lot, data := s.data, nonce := s.nonce }
        else r })
  else .ok (s, { db with records := db.records ++ [s] })

/-- `SqlRecord::select_by_lot` (src/db/records.rs): fetch every record
row of one lot. -/
def SqlRecord.selectByLot (db : Database) (lot : Nat) :
    Except DbError (List SqlRecord) :=
  if ¬db.connected then .error .connection
  else .ok (db.records.filter (fun r => r.lot = lot))

/-- The `VALIDATION` marker from src/user.rs (`b"VALID"`). -/
def VALIDATION : Bytes := [86, 65, 76, 73, 68]

/-- `User::new` from src/user.rs: generate a salt, derive the key from
the password, and encrypt the validation marker under it. -/
def User.new (username : String) (password : Password) (rng : OsRng) :
    Except UserError User × OsRng :=
  let (salt, rng) := Key.generateSalt rng
  match Key.fromPassword User password salt with
  | .error e => (.error (.encrypt e), rng)
  | .ok key =>
    match key.encrypt VALIDATION rng with
    | (.error e, rng) => (.error (.encrypt e), rng)
    | (.ok validation, rng) => (.ok (User.mk username salt validation key), rng)

/-- `User::validate` from src/user.rs: try to decrypt the stored
validation marker; any decryption failure collapses to `false`. -/
def User.validate (u : User) : Bool :=
  match u.key.decrypt u.validation with
  | .ok v => v = VALIDATION
  | .error _ => false

/-- `User::register` from src/user.rs: insert the user row. -/
def User.register (u : User) (db : Database) :
    Except UserError (User × Database) :=
  match SqlUser.insert
      ⟨u.username, u.salt, u.validation.data, u.validation.nonce⟩ db with
  | .error e => .error (.database e)
  | .ok (_, db) => .ok (u, db)

/-- `User::load` from src/user.rs: select the stored row, re-derive the
key from the supplied password, rebuild the candidate user (checking the
stored salt has exactly `SALT_SIZE` bytes), and accept it only if it
validates. -/
def User.load (db : Database) (username : String) (password : Password) :
    Except UserError User :=
  match SqlUser.select db username with
  | .error e => .error (.database e)
  | .ok su =>
    match Key.fromPassword User password su.salt with
    | .error e => .error (.encrypt e)
    | .ok key =>
      if su.salt.length = SALT_SIZE then
        let user := User.mk su.username su.salt
          ⟨su.validationData, su.validationNonce⟩ key
        if user.validate then .ok user else .error .invalid
      else .error .saltError

/-- `Record::new` from src/record.rs. -/
def Record.new (lot : Lot) (data : RecordData) (rng : OsRng) :
    Record × OsRng :=
  let (uuid, rng) := Uuid.now rng
  ({ lot := lot.uuid, uuid := uuid, data := data }, rng)

/-- `Record::save` from src/record.rs: encrypt the payload under the
lot's current key and upsert the row. -/
def Record.save (r : Record) (db : Database) (lot : Lot) (rng : OsRng) :
    Except RecordError (Nat × Database) × OsRng :=
  let uuid := r.uuid
  match r.data.encrypt lot.key rng with
  | (.error e, rng) => (.error e, rng)
  | (.ok encrypted, rng) =>
    match SqlRecord.upsert
        ⟨r.lot, r.uuid, encrypted.data, encrypted.nonce⟩ db with
    | .error e => (.error (.database e), rng)
    | .ok (_, db) => (.ok (uuid, db), rng)

/-- `Record::insert` from src/record.rs: save the record, then push it
onto the lot's in-memory record sequence.  The (possibly updated) lot is
returned alongside, modelling the `&mut Lot` argument. -/
def Record.insert (r : Record) (db : Database) (lot : Lot) (rng : OsRng) :
    Except RecordError (Nat × Database) × Lot × OsRng :=
  match Record.save r db lot rng with
  | (.error e, rng) => (.error e, lot, rng)
  | (.ok (uuid, db), rng) =>
    (.ok (uuid, db), lot.withRecords (lot.records ++ [r]), rng)

/-- The loop body of `Record::load_all` (src/record.rs): decrypt each
row under the lot key, failing the whole load on the first failure.  In
the model identifier parsing never fails, so the `uuid::Error` path does
not occur. -/
def Record.loadRows (key : Key Lot) (lotUuid : Nat) :
    List SqlRecord → Except RecordError (List Record)
  | [] => .ok []
  | row :: rest =>
    match RecordData.decrypt ⟨row.data, row.nonce⟩ key with
    | .error e => .error e
    | .ok data =>
      match Record.loadRows key lotUuid rest with
      | .error e => .error e
      | .ok rs => .ok ({ lot := lotUuid, uuid := row.uuid, data := data } :: rs)

/-- `Record::load_all` from src/record.rs. -/
def Record.loadAll (db : Database) (lot : Lot) :
    Except RecordError (List Record) :=
  match SqlRecord.selectByLot db lot.uuid with
  | .error e => .error (.database e)
  | .ok rows => Record.loadRows lot.key lot.uuid rows

/-- The record loop of `Lot::save` (src/lot.rs): save every record
currently held in memory under the lot's current key. -/
def Lot.saveRecords (rs : List Record) (db : Database) (lot : Lot)
    (rng : OsRng) : Except RecordError Database × OsRng :=
  match rs with
  | [] => (.ok db, rng)
  | r :: rest =>
    match Record.save r db lot rng with
    | (.error e, rng) => (.error e, rng)
    | (.ok (_, db), rng) => Lot.saveRecords rest db lot rng

/-- `Lot::save` from src/lot.rs: upsert the lot row, wrap the lot key
under the user's key and upsert the wrapping row, then re-save every
record under the current lot key. -/
def Lot.save (lot : Lot) (db : Database) (user : User) (rng : OsRng) :
    Except LotError (Nat × Database) × OsRng :=
  match SqlLot.upsert ⟨lot.uuid, lot.name⟩ db with
  | .error e => (.error (.database e), rng)
  | .ok (_, db) =>
    match user.key.encrypt lot.key.asBytes rng with
    | (.error e, rng) => (.error (.encrypt e), rng)
    | (.ok encrypted, rng) =>
      match SqlUserLotKey.upsert
          ⟨user.username, lot.uuid, encrypted.data, encrypted.nonce⟩ db with
      | .error e => (.error (.database e), rng)
      | .ok (_, db) =>
        match Lot.saveRecords lot.records db lot rng with
        | (.error e, rng) => (.error (.record e), rng)
        | (.ok db, rng) => (.ok (lot.uuid, db), rng)

/-- `Lot::new` from src/lot.rs: fresh id, fresh random key, no
records. -/
def Lot.new (name : String) (rng : OsRng) : Lot × OsRng :=
  let (uuid, rng) := Uuid.now rng
  let (key, rng) := Key.new Lot rng
  (Lot.mk uuid name [] key, rng)

/-- `Lot::decrypt_and_build` from src/lot.rs: unwrap the lot key with
the user's key, rebuild the lot, and load its records. -/
def Lot.decryptAndBuild (db : Database) (user : User) (sqlLot : SqlLot)
    (sqlUlk : SqlUserLotKey) : Except LotError Lot :=
  match user.key.decrypt ⟨sqlUlk.data, sqlUlk.nonce⟩ with
  | .error e => .error (.encrypt e)
  | .ok keyBytes =>
    let lot := Lot.mk sqlLot.uuid sqlLot.name [] (Key.fromBytes Lot keyBytes)
    match Record.loadAll db lot with
    | .error e => .error (.record e)
    | .ok records => .ok (lot.withRecords records)

/-- `Lot::load` from src/lot.rs: fetch the lot row by name, the
wrapping row by (username, lot), then decrypt and build. -/
def Lot.load (db : Database) (name : String) (user : User) :
    Except LotError Lot :=
  match SqlLot.selectByName db name with
  | .error e => .error (.database e)
  | .ok sqlLot =>
    match SqlUserLotKey.select db user.username sqlLot.uuid with
    | .error e => .error (.database e)
    | .ok sqlUlk => Lot.decryptAndBuild db user sqlLot sqlUlk

/-- The relation "this table row is the encryption of this record under
this lot key": same ids, and the row decrypts back to the record's
payload. -/
def rowDecryptsTo (key : Key Lot) (row : SqlRecord) (r : Record) : Prop :=
  row.uuid = r.uuid ∧ row.lot = r.lot ∧
    RecordData.decrypt ⟨row.data, row.nonce⟩ key = .ok r.data

instance (key : Key Lot) (row : SqlRecord) (r : Record) :
    Decidable (rowDecryptsTo key row r) :=
  inferInstanceAs (Decidable (_ ∧ _ ∧ _))

/-
  ## Theorems
-/

theorem unframe_frame_append (l r : Bytes) :
    unframe (frame l ++ r) = some (l, r) := by
  simp [frame, unframe, List.take_left, List.drop_left]

theorem natToBytesLE_inj (w : Nat) :
    ∀ a b : Nat, a < 256 ^ w → b < 256 ^ w →
      natToBytesLE w a = natToBytesLE w b → a = b := by
  induction w with
  | zero => intro a b ha hb _; omega
  | succ w ih =>
    intro a b ha hb h
    simp only [natToBytesLE, List.cons.injEq] at h
    have hha : a / 256 < 256 ^ w := by
      have : 256 ^ (w + 1) = 256 ^ w * 256 := by ring
      omega
    have hhb : b / 256 < 256 ^ w := by
      have : 256 ^ (w + 1) = 256 ^ w * 256 := by ring
      omega
    have := ih (a / 256) (b / 256) hha hhb h.2
    omega

theorem natToBytesLE_length (w n : Nat) :
    (natToBytesLE w n).length = w := by
  induction w generalizing n with
  | zero => rfl
  | succ w ih => simp [natToBytesLE, ih]

theorem aeadOpen_aeadSeal (key nonce plaintext : Bytes) :
    aeadOpen key nonce (aeadSeal key nonce plaintext) = some plaintext := by
  simp [aeadSeal, aeadOpen, unframe_frame_append]

theorem aeadSeal_inj {k₁ n₁ p₁ k₂ n₂ p₂ : Bytes}
    (h : aeadSeal k₁ n₁ p₁ = aeadSeal k₂ n₂ p₂) :
    k₁ = k₂ ∧ n₁ = n₂ ∧ p₁ = p₂ := by
  have h₁ : unframe (aeadSeal k₁ n₁ p₁) = some (k₁, frame n₁ ++ p₁) :=
    unframe_frame_append _ _
  have h₂ : unframe (aeadSeal k₂ n₂ p₂) = some (k₂, frame n₂ ++ p₂) :=
    unframe_frame_append _ _
  rw [h] at h₁
  rw [h₂] at h₁
  simp only [Option.some.injEq, Prod.mk.injEq] at h₁
  obtain ⟨hk, hrest⟩ := h₁
  have h₃ : unframe (frame n₂ ++ p₂) = some (n₂, p₂) := unframe_frame_append _ _
  rw [hrest] at h₃
  rw [unframe_frame_append] at h₃
  simp only [Option.some.injEq, Prod.mk.injEq] at h₃
  exact ⟨hk.symm, h₃.1, h₃.2⟩

theorem kdf_inj {pw₁ s₁ pw₂ s₂ : Bytes} (h : kdf pw₁ s₁ = kdf pw₂ s₂) :
    pw₁ = pw₂ ∧ s₁ = s₂ := by
  have h₁ : unframe (kdf pw₁ s₁) = some (pw₁, s₁) := unframe_frame_append _ _
  rw [h] at h₁
  have h₂ : unframe (kdf pw₂ s₂) = some (pw₂, s₂) := unframe_frame_append _ _
  rw [h₂] at h₁
  simp only [Option.some.injEq, Prod.mk.injEq] at h₁
  exact ⟨h₁.1.symm, h₁.2.symm⟩

theorem Key.decrypt_after_encrypt {T : Type} (k : Key T) (p : Bytes) (rng : OsRng) :
    ∀ e rng', k.encrypt p rng = (.ok e, rng') → k.decrypt e = .ok p := by
  intro e rng' h
  simp only [Key.encrypt, OsRng.fillBytes, Prod.mk.injEq] at h
  obtain ⟨he, _⟩ := h
  cases he
  simp [Key.decrypt, aeadOpen_aeadSeal]

theorem strBytes_roundtrip (s : String) :
    String.mk ((strBytes s).map Char.ofNat) = s := by
  cases s with
  | mk data =>
    simp only [strBytes, String.toList, List.map_map]
    congr 1
    have : (Char.ofNat ∘ Char.toNat) = id := funext Char.ofNat_toNat
    rw [this, List.map_id]

theorem unframe_frame (l : Bytes) : unframe (frame l) = some (l, []) := by
  have h := unframe_frame_append l []
  simpa using h

theorem decStr_encStr (s : String) (rest : Bytes) :
    decStr (encStr s ++ rest) = some (s, rest) := by
  simp [decStr, encStr, unframe_frame_append, strBytes_roundtrip]

theorem decStr_encStr_nil (s : String) : decStr (encStr s) = some (s, []) := by
  have h := decStr_encStr s []
  simpa using h

theorem decPairs_encPairs (ps : List (String × String)) (rest : Bytes) :
    decPairs ps.length (encPairs ps ++ rest) = some (ps, rest) := by
  induction ps generalizing rest with
  | nil => simp [encPairs, decPairs]
  | cons p ps ih =>
    obtain ⟨k, v⟩ := p
    simp only [encPairs, List.map_cons, List.flatten_cons, List.length_cons,
      List.append_assoc, decPairs, decStr_encStr]
    have h := ih rest
    simp only [encPairs] at h
    simp only [h]

theorem decPairs_encPairs_nil (ps : List (String × String)) :
    decPairs ps.length (encPairs ps) = some (ps, []) := by
  have h := decPairs_encPairs ps []
  simpa using h

theorem decodeCore_zero (rest : Bytes) :
    decodeCore (0 :: rest) =
      (match decStr rest with
       | some (label, n :: rest) =>
         (match decPairs n rest with
          | some (attributes, []) => some (.domain label attributes)
          | _ => none)
       | _ => none) := rfl

theorem decodeCore_one (rest : Bytes) :
    decodeCore (1 :: rest) =
      (match decStr rest with
       | some (label, rest) =>
         (match decStr rest with
          | some (value, []) => some (.plain label value)
          | _ => none)
       | _ => none) := rfl

theorem decode_encode (d : RecordData) :
    RecordData.decode d.encode = .ok d := by
  cases d with
  | plain label value =>
    simp only [RecordData.decode, RecordData.encode, decodeCore_one,
      decStr_encStr, decStr_encStr_nil]
  | domain label attributes =>
    simp only [RecordData.decode, RecordData.encode, decodeCore_zero,
      decStr_encStr, decPairs_encPairs_nil]

theorem decompress_compress (d : RecordData) :
    ∀ c, d.compress = .ok c → RecordData.decompress c = .ok d := by
  intro c hc
  simp only [RecordData.compress, Except.ok.injEq] at hc
  cases hc
  simp only [RecordData.decompress, snapCompress, snapDecompress, unframe_frame]
  exact decode_encode d

theorem RecordData.decrypt_encrypt (d : RecordData) (key : Key Lot)
    (rng : OsRng) :
    ∀ e rng', d.encrypt key rng = (.ok e, rng') →
      RecordData.decrypt e key = .ok d := by
  intro e rng' h
  simp only [RecordData.encrypt, RecordData.compress] at h
  rw [Key.encrypt] at h
  simp only [Prod.mk.injEq, Except.ok.injEq] at h
  obtain ⟨he, _⟩ := h
  cases he
  simp only [RecordData.decrypt, Key.decrypt, aeadOpen_aeadSeal]
  exact decompress_compress d _ rfl

@[simp] theorem Lot.uuid_mk (u : Nat) (n : String) (rs : List Record)
    (k : Key Lot) : (Lot.mk u n rs k).uuid = u := rfl

@[simp] theorem Lot.name_mk (u : Nat) (n : String) (rs : List Record)
    (k : Key Lot) : (Lot.mk u n rs k).name = n := rfl

@[simp] theorem Lot.records_mk (u : Nat) (n : String) (rs : List Record)
    (k : Key Lot) : (Lot.mk u n rs k).records = rs := rfl

@[simp] theorem Lot.key_mk (u : Nat) (n : String) (rs : List Record)
    (k : Key Lot) : (Lot.mk u n rs k).key = k := rfl

@[simp] theorem Lot.uuid_withKey (lot : Lot) (k : Key Lot) :
    (lot.withKey k).uuid = lot.uuid := by cases lot; rfl

@[simp] theorem Lot.name_withKey (lot : Lot) (k : Key Lot) :
    (lot.withKey k).name = lot.name := by cases lot; rfl

@[simp] theorem Lot.records_withKey (lot : Lot) (k : Key Lot) :
    (lot.withKey k).records = lot.records := by cases lot; rfl

@[simp] theorem Lot.key_withKey (lot : Lot) (k : Key Lot) :
    (lot.withKey k).key = k := by cases lot; rfl

@[simp] theorem Lot.uuid_withRecords (lot : Lot) (rs : List Record) :
    (lot.withRecords rs).uuid = lot.uuid := by cases lot; rfl

@[simp] theorem Lot.name_withRecords (lot : Lot) (rs : List Record) :
    (lot.withRecords rs).name = lot.name := by cases lot; rfl

@[simp] theorem Lot.records_withRecords (lot : Lot) (rs : List Record) :
    (lot.withRecords rs).records = rs := by cases lot; rfl

@[simp] theorem Lot.key_withRecords (lot : Lot) (rs : List Record) :
    (lot.withRecords rs).key = lot.key := by cases lot; rfl

@[simp] theorem User.username_mk (n : String) (s : Bytes) (v : Encrypted)
    (k : Key User) : (User.mk n s v k).username = n := rfl

@[simp] theorem User.salt_mk (n : String) (s : Bytes) (v : Encrypted)
    (k : Key User) : (User.mk n s v k).salt = s := rfl

@[simp] theorem User.validation_mk (n : String) (s : Bytes) (v : Encrypted)
    (k : Key User) : (User.mk n s v k).validation = v := rfl

@[simp] theorem User.key_of_mk (n : String) (s : Bytes) (v : Encrypted)
    (k : Key User) : (User.mk n s v k).key = k := rfl

@[simp] theorem Key.bytes_mk {T : Type} (b : Bytes) :
    (Key.mk b : Key T).bytes = b := rfl

@[simp] theorem Key.mk_bytes {T : Type} (k : Key T) :
    (Key.mk k.bytes : Key T) = k := by cases k; rfl

/-- Claim C1: for every key K (of any owner tag) and every byte string P,
decrypting the result of encrypting P under K with that same K succeeds
and returns exactly P. -/
theorem claim_C1_encrypt_decrypt_roundtrip :
    ∀ (T : Type) (k : Key T) (p : Bytes) (rng : OsRng),
      ∃ e rng', k.encrypt p rng = (.ok e, rng') ∧ k.decrypt e = .ok p := by
  intro T k p rng
  refine ⟨_, _, rfl, ?_⟩
  exact Key.decrypt_after_encrypt k p rng _ _ rfl

/-- Claim C2: every SecretPayload value round-trips losslessly through
the encode/compress stage, and through the full encrypt/decrypt pipeline
under any lot key. -/
theorem claim_C2_payload_roundtrip :
    ∀ V : RecordData,
      (∃ c, V.compress = .ok c ∧ RecordData.decompress c = .ok V) ∧
      (∀ (k : Key Lot) (rng : OsRng),
        ∃ e rng', V.encrypt k rng = (.ok e, rng') ∧
          RecordData.decrypt e k = .ok V) := by
  intro V
  refine ⟨⟨_, rfl, decompress_compress V _ rfl⟩, ?_⟩
  intro k rng
  refine ⟨_, _, rfl, ?_⟩
  exact RecordData.decrypt_encrypt V k rng _ _ rfl

/-- Claim C4: a User freshly constructed by `User::new` — random salt,
key derived from the password and salt, validation marker encrypted
under that key — satisfies `validate() = true` immediately. -/
theorem claim_C4_new_user_validates :
    ∀ (username : String) (password : Password) (rng : OsRng),
      ∃ u rng', User.new username password rng = (.ok u, rng') ∧
        u.validate = true := by
  intro username password rng
  have hfp : Key.fromPassword User password
      (natToBytesLE SALT_SIZE rng.counter) =
      .ok ⟨kdf password (natToBytesLE SALT_SIZE rng.counter)⟩ := by
    simp [Key.fromPassword, natToBytesLE_length, SALT_SIZE, MIN_SALT_LEN]
  refine ⟨User.mk username (natToBytesLE SALT_SIZE rng.counter)
      ⟨aeadSeal (kdf password (natToBytesLE SALT_SIZE rng.counter))
        (natToBytesLE NONCE_SIZE (rng.counter + 1)) VALIDATION,
      natToBytesLE NONCE_SIZE (rng.counter + 1)⟩
      ⟨kdf password (natToBytesLE SALT_SIZE rng.counter)⟩,
    OsRng.mk (rng.counter + 2), ?_, ?_⟩
  · simp only [User.new, Key.generateSalt, OsRng.fillBytes, hfp,
      Key.encrypt]
  · simp [User.validate, Key.decrypt, aeadOpen_aeadSeal]

/-- Claim C6: key derivation is deterministic in password and salt, and
salt-sensitive — identical (password, salt) inputs give identical raw
key bytes, while distinct salts give distinct raw key bytes. -/
theorem claim_C6_kdf_deterministic_and_salt_sensitive :
    ∀ (T : Type) (pw : Password) (s₁ s₂ : Bytes) (k₁ k₂ : Key T),
      Key.fromPassword T pw s₁ = .ok k₁ →
      Key.fromPassword T pw s₂ = .ok k₂ →
      (s₁ = s₂ → k₁.bytes = k₂.bytes) ∧ (s₁ ≠ s₂ → k₁.bytes ≠ k₂.bytes) := by
  intro T pw s₁ s₂ k₁ k₂ h₁ h₂
  simp only [Key.fromPassword] at h₁ h₂
  split at h₁
  · exact (Except.noConfusion h₁)
  split at h₂
  · exact (Except.noConfusion h₂)
  simp only [Except.ok.injEq] at h₁ h₂
  cases h₁
  cases h₂
  constructor
  · intro hs; simp [hs]
  · intro hs hk
    simp only [Key.bytes_mk] at hk
    exact hs (kdf_inj hk).2

/-- Witness for claim C6 at password `[]` and two distinct 8-byte
salts. -/
theorem claim_C6_witness :
    (([0, 0, 0, 0, 0, 0, 0, 0] : Bytes) = [0, 0, 0, 0, 0, 0, 0, 1] →
      (Key.mk (kdf [] [0, 0, 0, 0, 0, 0, 0, 0]) : Key Unit).bytes =
        (Key.mk (kdf [] [0, 0, 0, 0, 0, 0, 0, 1]) : Key Unit).bytes) ∧
    (([0, 0, 0, 0, 0, 0, 0, 0] : Bytes) ≠ [0, 0, 0, 0, 0, 0, 0, 1] →
      (Key.mk (kdf [] [0, 0, 0, 0, 0, 0, 0, 0]) : Key Unit).bytes ≠
        (Key.mk (kdf [] [0, 0, 0, 0, 0, 0, 0, 1]) : Key Unit).bytes) :=
  claim_C6_kdf_deterministic_and_salt_sensitive Unit []
    [0, 0, 0, 0, 0, 0, 0, 0] [0, 0, 0, 0, 0, 0, 0, 1]
    (Key.mk (kdf [] [0, 0, 0, 0, 0, 0, 0, 0]))
    (Key.mk (kdf [] [0, 0, 0, 0, 0, 0, 0, 1])) (by decide) (by decide)

/-- Claim C7: two successive encrypt calls on the same key and plaintext
yield different Encrypted values, and in particular different nonces,
because a fresh nonce is drawn from the random source each call (stated
below the idealized bound on the nonce counter). -/
theorem claim_C7_encrypt_nonce_randomized :
    ∀ (T : Type) (k : Key T) (p : Bytes) (rng : OsRng) e₁ e₂ rng₁ rng₂,
      rng.counter + 1 < 256 ^ NONCE_SIZE →
      k.encrypt p rng = (.ok e₁, rng₁) →
      k.encrypt p rng₁ = (.ok e₂, rng₂) →
      e₁.nonce ≠ e₂.nonce ∧ e₁ ≠ e₂ := by
  intro T k p rng e₁ e₂ rng₁ rng₂ hbound h₁ h₂
  simp only [Key.encrypt, OsRng.fillBytes, Prod.mk.injEq,
    Except.ok.injEq] at h₁ h₂
  obtain ⟨he₁, hr₁⟩ := h₁
  obtain ⟨he₂, hr₂⟩ := h₂
  cases he₁
  cases hr₁.symm
  cases he₂
  have hnon : (natToBytesLE NONCE_SIZE rng.counter) ≠
      (natToBytesLE NONCE_SIZE (rng.counter + 1)) := by
    intro hc
    have := natToBytesLE_inj NONCE_SIZE rng.counter (rng.counter + 1)
      (by omega) hbound hc
    omega
  refine ⟨hnon, ?_⟩
  intro hc
  exact hnon (congrArg Encrypted.nonce hc)

/-- Witness for claim C7 at a unit-tagged key `[5]`, plaintext `[7]`,
counter 0. -/
theorem claim_C7_witness :
    (OsRng.mk 0).counter + 1 < 256 ^ NONCE_SIZE ∧
    ((⟨aeadSeal [5] (natToBytesLE NONCE_SIZE 0) [7],
        natToBytesLE NONCE_SIZE 0⟩ : Encrypted).nonce ≠
      (⟨aeadSeal [5] (natToBytesLE NONCE_SIZE 1) [7],
        natToBytesLE NONCE_SIZE 1⟩ : Encrypted).nonce ∧
      (⟨aeadSeal [5] (natToBytesLE NONCE_SIZE 0) [7],
        natToBytesLE NONCE_SIZE 0⟩ : Encrypted) ≠
      ⟨aeadSeal [5] (natToBytesLE NONCE_SIZE 1) [7],
        natToBytesLE NONCE_SIZE 1⟩) :=
  ⟨by norm_num [NONCE_SIZE],
    claim_C7_encrypt_nonce_randomized Unit ⟨[5]⟩ [7] ⟨0⟩ _ _ ⟨1⟩ ⟨2⟩
      (by norm_num [NONCE_SIZE]) rfl rfl⟩


/-- Claim C5: with the stored row found and its salt well-formed,
`User::load` fails with the InvalidCredentials error exactly when the
rebuilt candidate user fails `validate()`; and `validate()` itself is a
total boolean — it is false precisely when decrypting the stored
validation ciphertext does not yield the fixed marker. -/
theorem claim_C5_load_invalid_iff_validate_false :
    ∀ (db : Database) (username : String) (password : Password)
      (su : SqlUser),
      SqlUser.select db username = .ok su →
      su.salt.length = SALT_SIZE →
      ((User.load db username password = .error .invalid ↔
        (User.mk su.username su.salt
          ⟨su.validationData, su.validationNonce⟩
          ⟨kdf password su.salt⟩).validate = false) ∧
      (∀ u : User,
        u.validate = false ↔ u.key.decrypt u.validation ≠ .ok VALIDATION)) := by
  intro db username password su hsel hsalt
  constructor
  · cases hv : (User.mk su.username su.salt
        ⟨su.validationData, su.validationNonce⟩
        ⟨kdf password su.salt⟩).validate with
    | false =>
      simp [User.load, hsel, Key.fromPassword, hsalt, hv,
        SALT_SIZE, MIN_SALT_LEN]
    | true =>
      simp [User.load, hsel, Key.fromPassword, hsalt, hv,
        SALT_SIZE, MIN_SALT_LEN]
  · intro u
    simp only [User.validate]
    cases hd : u.key.decrypt u.validation with
    | ok v => simp
    | error e => simp

/-- Witness for claim C5 at a one-user database with a 16-byte salt. -/
theorem claim_C5_witness :
    SqlUser.select
        ⟨true, [⟨"alice", List.replicate 16 0, [], []⟩], [], [], []⟩
        "alice" = .ok ⟨"alice", List.replicate 16 0, [], []⟩ ∧
    (List.replicate 16 0).length = SALT_SIZE ∧
    ((User.load ⟨true, [⟨"alice", List.replicate 16 0, [], []⟩], [], [], []⟩
        "alice" [] = .error .invalid ↔
      (User.mk "alice" (List.replicate 16 0) ⟨[], []⟩
        ⟨kdf [] (List.replicate 16 0)⟩).validate = false) ∧
    (∀ u : User,
      u.validate = false ↔ u.key.decrypt u.validation ≠ .ok VALIDATION)) :=
  ⟨by decide, by decide,
    claim_C5_load_invalid_iff_validate_false
      ⟨true, [⟨"alice", List.replicate 16 0, [], []⟩], [], [], []⟩
      "alice" [] ⟨"alice", List.replicate 16 0, [], []⟩
      (by decide) (by decide)⟩

/-- Counterexample for claim C10 as stated: a stored row whose salt is
3 bytes long — shorter than the argon2 crate's 8-byte minimum.
`Key::from_password` runs before the salt-length check and fails there,
so `User::load` returns the Encrypt(KeyDerivation) error, not
SaltError. -/
theorem claim_C10_counterexample :
    SqlUser.select ⟨true, [⟨"alice", [1, 2, 3], [], []⟩], [], [], []⟩
        "alice" = .ok ⟨"alice", [1, 2, 3], [], []⟩ ∧
    ([1, 2, 3] : Bytes).length ≠ SALT_SIZE ∧
    User.load ⟨true, [⟨"alice", [1, 2, 3], [], []⟩], [], [], []⟩
        "alice" [] = .error (.encrypt (.keyDerivation "salt too short")) ∧
    User.load ⟨true, [⟨"alice", [1, 2, 3], [], []⟩], [], [], []⟩
        "alice" [] ≠ .error .saltError := by
  refine ⟨by decide, by decide, by decide, by decide⟩

/-- Claim C10 (amended): when the stored row is found and its salt
column is at least the KDF's 8-byte minimum but not exactly SALT_SIZE
bytes long, `User::load` fails with the distinct SaltError (not
InvalidCredentials), raised while building the candidate user, before
validation is attempted; a stored salt shorter than the KDF's minimum
instead fails inside `Key::from_password` — which runs first — with the
Encrypt(KeyDerivation) error. -/
theorem claim_C10_bad_salt_is_salt_error :
    ∀ (db : Database) (username : String) (password : Password)
      (su : SqlUser),
      SqlUser.select db username = .ok su →
      su.salt.length ≠ SALT_SIZE →
      ((MIN_SALT_LEN ≤ su.salt.length →
        User.load db username password = .error .saltError) ∧
      (su.salt.length < MIN_SALT_LEN →
        User.load db username password =
          .error (.encrypt (.keyDerivation "salt too short"))) ∧
      UserError.saltError ≠ UserError.invalid) := by
  intro db username password su hsel hsalt
  refine ⟨?_, ?_, by simp⟩
  · intro hlen
    have hnl : ¬su.salt.length < MIN_SALT_LEN := by omega
    simp only [User.load, hsel, Key.fromPassword, hnl, if_false, hsalt]
  · intro hlen
    simp only [User.load, hsel, Key.fromPassword, hlen, if_true]

/-- Witness for the amended claim C10: a stored 10-byte salt yields
SaltError; a stored 3-byte salt yields the KeyDerivation error. -/
theorem claim_C10_witness :
    (User.load
        ⟨true, [⟨"alice", [1, 2, 3, 4, 5, 6, 7, 8, 9, 10], [], []⟩],
          [], [], []⟩ "alice" [] = .error .saltError ∧
      UserError.saltError ≠ UserError.invalid) ∧
    User.load ⟨true, [⟨"alice", [1, 2, 3], [], []⟩], [], [], []⟩
        "alice" [] = .error (.encrypt (.keyDerivation "salt too short")) :=
  ⟨⟨(claim_C10_bad_salt_is_salt_error
      ⟨true, [⟨"alice", [1, 2, 3, 4, 5, 6, 7, 8, 9, 10], [], []⟩],
        [], [], []⟩
      "alice" [] ⟨"alice", [1, 2, 3, 4, 5, 6, 7, 8, 9, 10], [], []⟩
      (by decide) (by decide)).1 (by decide),
    (claim_C10_bad_salt_is_salt_error
      ⟨true, [⟨"alice", [1, 2, 3, 4, 5, 6, 7, 8, 9, 10], [], []⟩],
        [], [], []⟩
      "alice" [] ⟨"alice", [1, 2, 3, 4, 5, 6, 7, 8, 9, 10], [], []⟩
      (by decide) (by decide)).2.2⟩,
    (claim_C10_bad_salt_is_salt_error
      ⟨true, [⟨"alice", [1, 2, 3], [], []⟩], [], [], []⟩
      "alice" [] ⟨"alice", [1, 2, 3], [], []⟩
      (by decide) (by decide)).2.1 (by decide)⟩

/-- Claim C9: `Record::insert` is atomic with respect to the lot's
in-memory state: on failure the save error is returned and the lot's
record sequence is unchanged; on success exactly the inserted record is
appended at the end and the returned uuid is that record's uuid. -/
theorem claim_C9_insert_atomic :
    ∀ (r : Record) (db : Database) (lot : Lot) (rng : OsRng),
      (∀ e lot' rng',
        Record.insert r db lot rng = (.error e, lot', rng') →
        lot' = lot ∧ (Record.save r db lot rng).1 = .error e) ∧
      (∀ uuid db' lot' rng',
        Record.insert r db lot rng = (.ok (uuid, db'), lot', rng') →
        lot'.records = lot.records ++ [r] ∧ uuid = r.uuid) := by
  intro r db lot rng
  constructor
  · intro e lot' rng' h
    unfold Record.insert at h
    cases hs : Record.save r db lot rng with
    | mk res rng₀ =>
      rw [hs] at h
      cases res with
      | error e₀ =>
        simp only [Prod.mk.injEq, Except.error.injEq] at h
        obtain ⟨he, hl, hr⟩ := h
        subst he
        exact ⟨hl.symm, by simp [hs]⟩
      | ok v => simp at h
  · intro uuid db' lot' rng' h
    unfold Record.insert at h
    cases hs : Record.save r db lot rng with
    | mk res rng₀ =>
      rw [hs] at h
      cases res with
      | error e₀ => simp at h
      | ok v =>
        obtain ⟨u₀, db₀⟩ := v
        simp only [Prod.mk.injEq, Except.ok.injEq] at h
        obtain ⟨⟨hu, _⟩, hl, _⟩ := h
        have huuid : u₀ = r.uuid := by
          cases he : r.data.encrypt lot.key rng with
          | mk eres erng =>
            cases eres with
            | error e₁ => simp only [Record.save, he] at hs; exact absurd hs (by simp)
            | ok enc =>
              simp only [Record.save, he] at hs
              cases hup : SqlRecord.upsert
                  ⟨r.lot, r.uuid, enc.data, enc.nonce⟩ db with
              | error e₂ => rw [hup] at hs; simp at hs
              | ok v₂ =>
                obtain ⟨s₂, db₂⟩ := v₂
                rw [hup] at hs
                simp only [Prod.mk.injEq, Except.ok.injEq] at hs
                exact hs.1.1.symm
        subst hl
        simp [Lot.records_withRecords, hu.symm, huuid]
  
/-- Witness for claim C9: a successful insert into an empty connected
database, and a failed insert on a disconnected database. -/
theorem claim_C9_witness :
    ((Lot.mk 1 "main" [] ⟨[2]⟩ : Lot) = Lot.mk 1 "main" [] ⟨[2]⟩ ∧
      (Record.save ⟨1, 5, .plain "a" "b"⟩ ⟨false, [], [], [], []⟩
        (Lot.mk 1 "main" [] ⟨[2]⟩) ⟨0⟩).1 =
          .error (.database .connection)) ∧
    ((Lot.mk 1 "main" [⟨1, 5, .plain "a" "b"⟩] ⟨[2]⟩ : Lot).records =
      (Lot.mk 1 "main" [] ⟨[2]⟩ : Lot).records ++ [⟨1, 5, .plain "a" "b"⟩] ∧
      (5 : Nat) = (⟨1, 5, .plain "a" "b"⟩ : Record).uuid) :=
  ⟨(claim_C9_insert_atomic ⟨1, 5, .plain "a" "b"⟩ ⟨false, [], [], [], []⟩
      (Lot.mk 1 "main" [] ⟨[2]⟩) ⟨0⟩).1 (.database .connection)
      (Lot.mk 1 "main" [] ⟨[2]⟩) ⟨1⟩ (by decide),
    (claim_C9_insert_atomic ⟨1, 5, .plain "a" "b"⟩ ⟨true, [], [], [], []⟩
      (Lot.mk 1 "main" [] ⟨[2]⟩) ⟨0⟩).2 5
      ⟨true, [], [], [],
        [⟨1, 5, aeadSeal [2] (natToBytesLE NONCE_SIZE 0)
          (snapCompress (RecordData.plain "a" "b").encode),
          natToBytesLE NONCE_SIZE 0⟩]⟩
      (Lot.mk 1 "main" [⟨1, 5, .plain "a" "b"⟩] ⟨[2]⟩) ⟨1⟩ (by decide)⟩


theorem Record.save_eq (r : Record) (db : Database) (lot : Lot)
    (rng : OsRng) :
    Record.save r db lot rng =
      (match SqlRecord.upsert ⟨r.lot, r.uuid,
          aeadSeal lot.key.bytes (natToBytesLE NONCE_SIZE rng.counter)
            (snapCompress r.data.encode),
          natToBytesLE NONCE_SIZE rng.counter⟩ db with
       | .error e => (.error (.database e), OsRng.mk (rng.counter + 1))
       | .ok (_, db) => (.ok (r.uuid, db), OsRng.mk (rng.counter + 1))) :=
  rfl

theorem SqlRecord.upsert_fresh (s : SqlRecord) (db : Database)
    (hconn : db.connected = true)
    (hfresh : ∀ row ∈ db.records, row.uuid ≠ s.uuid) :
    SqlRecord.upsert s db =
      .ok (s, { db with records := db.records ++ [s] }) := by
  have hany : db.records.any (fun r => r.uuid = s.uuid) = false := by
    rw [List.any_eq_false]
    intro x hx
    simp only [decide_eq_true_eq]
    exact hfresh x hx
  simp [SqlRecord.upsert, hconn, hany]

theorem SqlRecord.upsert_replace (s : SqlRecord) (db : Database)
    (hconn : db.connected = true)
    (hhit : ∃ row ∈ db.records, row.uuid = s.uuid) :
    SqlRecord.upsert s db =
      .ok (s, { db with records := db.records.map fun r =>
        if r.uuid = s.uuid then
          { r with lot := s.lot, data := s.data, nonce := s.nonce }
        else r }) := by
  have hany : db.records.any (fun r => r.uuid = s.uuid) = true := by
    rw [List.any_eq_true]
    obtain ⟨row, hm, he⟩ := hhit
    exact ⟨row, hm, by simpa using he⟩
  simp [SqlRecord.upsert, hconn, hany]

theorem Lot.saveRecords_fresh (lot : Lot) :
    ∀ (rs : List Record) (db : Database) (rng : OsRng),
      db.connected = true →
      (∀ r ∈ rs, ∀ row ∈ db.records, row.uuid ≠ r.uuid) →
      (rs.map Record.uuid).Nodup →
      ∃ newRows rng',
        Lot.saveRecords rs db lot rng =
          (.ok { db with records := db.records ++ newRows }, rng') ∧
        List.Forall₂ (rowDecryptsTo lot.key) newRows rs := by
  intro rs
  induction rs with
  | nil =>
    intro db rng hconn _ _
    refine ⟨[], rng, ?_, List.Forall₂.nil⟩
    simp [Lot.saveRecords]
  | cons r rest ih =>
    intro db rng hconn hfresh hnodup
    have hup : SqlRecord.upsert ⟨r.lot, r.uuid,
        aeadSeal lot.key.bytes (natToBytesLE NONCE_SIZE rng.counter)
          (snapCompress r.data.encode),
        natToBytesLE NONCE_SIZE rng.counter⟩ db =
        .ok (⟨r.lot, r.uuid,
          aeadSeal lot.key.bytes (natToBytesLE NONCE_SIZE rng.counter)
            (snapCompress r.data.encode),
          natToBytesLE NONCE_SIZE rng.counter⟩,
        { db with records := db.records ++ [⟨r.lot, r.uuid,
          aeadSeal lot.key.bytes (natToBytesLE NONCE_SIZE rng.counter)
            (snapCompress r.data.encode),
          natToBytesLE NONCE_SIZE rng.counter⟩] }) := by
      apply SqlRecord.upsert_fresh _ _ hconn
      intro row hrow
      exact hfresh r (by simp) row hrow
    have hsave : Record.save r db lot rng =
        (.ok (r.uuid, { db with records := db.records ++ [⟨r.lot, r.uuid,
          aeadSeal lot.key.bytes (natToBytesLE NONCE_SIZE rng.counter)
            (snapCompress r.data.encode),
          natToBytesLE NONCE_SIZE rng.counter⟩] }),
        OsRng.mk (rng.counter + 1)) := by
      rw [Record.save_eq, hup]
    have hnodup' : (rest.map Record.uuid).Nodup := by
      simp only [List.map_cons, List.nodup_cons] at hnodup
      exact hnodup.2
    have hnotmem : r.uuid ∉ rest.map Record.uuid := by
      simp only [List.map_cons, List.nodup_cons] at hnodup
      exact hnodup.1
    have hfresh' : ∀ r' ∈ rest,
        ∀ row ∈ (db.records ++ [(⟨r.lot, r.uuid,
          aeadSeal lot.key.bytes (natToBytesLE NONCE_SIZE rng.counter)
            (snapCompress r.data.encode),
          natToBytesLE NONCE_SIZE rng.counter⟩ : SqlRecord)]),
        row.uuid ≠ r'.uuid := by
      intro r' hr' row hrow
      rcases List.mem_append.mp hrow with hml | hmr
      · exact hfresh r' (List.mem_cons_of_mem _ hr') row hml
      · have hrw : row = ⟨r.lot, r.uuid,
            aeadSeal lot.key.bytes (natToBytesLE NONCE_SIZE rng.counter)
              (snapCompress r.data.encode),
            natToBytesLE NONCE_SIZE rng.counter⟩ := by simpa using hmr
        subst hrw
        intro hcontra
        have hcontra' : r.uuid = r'.uuid := hcontra
        exact hnotmem (by
          rw [hcontra']
          exact List.mem_map_of_mem Record.uuid hr')
    obtain ⟨newRows', rng', heq, hrel⟩ :=
      ih { db with records := db.records ++ [⟨r.lot, r.uuid,
        aeadSeal lot.key.bytes (natToBytesLE NONCE_SIZE rng.counter)
          (snapCompress r.data.encode),
        natToBytesLE NONCE_SIZE rng.counter⟩] }
        (OsRng.mk (rng.counter + 1)) hconn hfresh' hnodup'
    refine ⟨(⟨r.lot, r.uuid,
      aeadSeal lot.key.bytes (natToBytesLE NONCE_SIZE rng.counter)
        (snapCompress r.data.encode),
      natToBytesLE NONCE_SIZE rng.counter⟩ : SqlRecord) :: newRows', rng',
      ?_, ?_⟩
    · simp only [Lot.saveRecords, hsave, heq]
      simp
    · refine List.Forall₂.cons ⟨rfl, rfl, ?_⟩ hrel
      exact RecordData.decrypt_encrypt r.data lot.key rng _ _ rfl


theorem map_id_of_eq {α : Type} (f : α → α) :
    ∀ l : List α, (∀ x ∈ l, f x = x) → l.map f = l := by
  intro l h
  induction l with
  | nil => rfl
  | cons a as ih =>
    simp only [List.map_cons, h a (by simp)]
    rw [ih (fun x hx => h x (by simp [hx]))]

theorem Lot.saveRecords_replace (lot : Lot) :
    ∀ (rs : List Record) (tbl₁ tbl₂ : List SqlRecord) (db : Database)
      (rng : OsRng),
      db.connected = true →
      db.records = tbl₁ ++ tbl₂ →
      (∀ row ∈ tbl₁, ∀ r ∈ rs, row.uuid ≠ r.uuid) →
      tbl₂.map SqlRecord.uuid = rs.map Record.uuid →
      (rs.map Record.uuid).Nodup →
      ∃ tbl₂' rng',
        Lot.saveRecords rs db lot rng =
          (.ok { db with records := tbl₁ ++ tbl₂' }, rng') ∧
        List.Forall₂ (rowDecryptsTo lot.key) tbl₂' rs := by
  intro rs
  induction rs with
  | nil =>
    intro tbl₁ tbl₂ db rng hconn hrec _ hmap _
    have htbl₂ : tbl₂ = [] := by
      have h0 : tbl₂.map SqlRecord.uuid = ([] : List Nat) := by simpa using hmap
      exact List.map_eq_nil_iff.mp h0
    subst htbl₂
    refine ⟨[], rng, ?_, .nil⟩
    simp only [List.append_nil] at hrec
    simp [Lot.saveRecords, ← hrec]
  | cons r rest ih =>
    intro tbl₁ tbl₂ db rng hconn hrec htbl₁ hmap hnodup
    cases tbl₂ with
    | nil => simp at hmap
    | cons row₀ tbl₂r =>
      simp only [List.map_cons, List.cons.injEq] at hmap
      obtain ⟨huuid₀, hmapr⟩ := hmap
      have hnodup' : (rest.map Record.uuid).Nodup := by
        simp only [List.map_cons, List.nodup_cons] at hnodup
        exact hnodup.2
      have hnotmem : r.uuid ∉ rest.map Record.uuid := by
        simp only [List.map_cons, List.nodup_cons] at hnodup
        exact hnodup.1
      have hup := SqlRecord.upsert_replace ⟨r.lot, r.uuid,
        aeadSeal lot.key.bytes (natToBytesLE NONCE_SIZE rng.counter)
          (snapCompress r.data.encode),
        natToBytesLE NONCE_SIZE rng.counter⟩ db hconn
        ⟨row₀, (by rw [hrec]; exact List.mem_append_right _ (by simp)),
          huuid₀⟩
      have hmaptbl : db.records.map (fun x =>
          if x.uuid = r.uuid then
            { x with
              lot := r.lot,
              data := aeadSeal lot.key.bytes
                (natToBytesLE NONCE_SIZE rng.counter)
                (snapCompress r.data.encode),
              nonce := natToBytesLE NONCE_SIZE rng.counter }
          else x) =
          tbl₁ ++ ({ row₀ with
            lot := r.lot,
            data := aeadSeal lot.key.bytes
              (natToBytesLE NONCE_SIZE rng.counter)
              (snapCompress r.data.encode),
            nonce := natToBytesLE NONCE_SIZE rng.counter } :: tbl₂r) := by
        rw [hrec, List.map_append, List.map_cons]
        congr 1
        · apply map_id_of_eq
          intro x hx
          simp [htbl₁ x hx r (by simp)]
        · congr 1
          · simp [huuid₀]
          · apply map_id_of_eq
            intro x hx
            have hxuuid : x.uuid ∈ rest.map Record.uuid := by
              rw [← hmapr]
              exact List.mem_map_of_mem SqlRecord.uuid hx
            have : x.uuid ≠ r.uuid := by
              intro hcontra
              rw [hcontra] at hxuuid
              exact hnotmem hxuuid
            simp [this]
      have hsave : Record.save r db lot rng =
          (.ok (r.uuid, { db with records := tbl₁ ++
            ({ row₀ with
              lot := r.lot,
              data := aeadSeal lot.key.bytes
                (natToBytesLE NONCE_SIZE rng.counter)
                (snapCompress r.data.encode),
              nonce := natToBytesLE NONCE_SIZE rng.counter } :: tbl₂r) }),
          OsRng.mk (rng.counter + 1)) := by
        rw [Record.save_eq, hup, hmaptbl]
      have htbl₁' : ∀ row ∈ tbl₁ ++ [{ row₀ with
          lot := r.lot,
          data := aeadSeal lot.key.bytes
            (natToBytesLE NONCE_SIZE rng.counter)
            (snapCompress r.data.encode),
          nonce := natToBytesLE NONCE_SIZE rng.counter }],
          ∀ r' ∈ rest, row.uuid ≠ r'.uuid := by
        intro row hrow r' hr'
        rcases List.mem_append.mp hrow with hml | hmr
        · exact htbl₁ row hml r' (by simp [hr'])
        · have hrw : row = { row₀ with
              lot := r.lot,
              data := aeadSeal lot.key.bytes
                (natToBytesLE NONCE_SIZE rng.counter)
                (snapCompress r.data.encode),
              nonce := natToBytesLE NONCE_SIZE rng.counter } := by
            simpa using hmr
          subst hrw
          have hru : row₀.uuid = r.uuid := huuid₀
          intro hcontra
          have hcontra' : row₀.uuid = r'.uuid := hcontra
          rw [hru] at hcontra'
          exact hnotmem (by
            rw [hcontra']
            exact List.mem_map_of_mem Record.uuid hr')
      obtain ⟨tbl₂'', rng', heq, hrel⟩ :=
        ih (tbl₁ ++ [{ row₀ with
          lot := r.lot,
          data := aeadSeal lot.key.bytes
            (natToBytesLE NONCE_SIZE rng.counter)
            (snapCompress r.data.encode),
          nonce := natToBytesLE NONCE_SIZE rng.counter }]) tbl₂r
          { db with records := tbl₁ ++
            ({ row₀ with
              lot := r.lot,
              data := aeadSeal lot.key.bytes
                (natToBytesLE NONCE_SIZE rng.counter)
                (snapCompress r.data.encode),
              nonce := natToBytesLE NONCE_SIZE rng.counter } :: tbl₂r) }
          (OsRng.mk (rng.counter + 1)) hconn (by simp) htbl₁' hmapr hnodup'
      refine ⟨{ row₀ with
        lot := r.lot,
        data := aeadSeal lot.key.bytes
          (natToBytesLE NONCE_SIZE rng.counter)
          (snapCompress r.data.encode),
        nonce := natToBytesLE NONCE_SIZE rng.counter } :: tbl₂'', rng',
        ?_, ?_⟩
      · simp only [Lot.saveRecords, hsave, heq]
        simp
      · refine List.Forall₂.cons ⟨huuid₀, rfl, ?_⟩ hrel
        exact RecordData.decrypt_encrypt r.data lot.key rng _ _ rfl


theorem Record.loadRows_of_forall₂ (key : Key Lot) (lotUuid : Nat) :
    ∀ (rows : List SqlRecord) (rs : List Record),
      List.Forall₂ (rowDecryptsTo key) rows rs →
      ∃ out, Record.loadRows key lotUuid rows = .ok out ∧
        out.map (fun r => (r.uuid, r.data)) =
          rs.map (fun r => (r.uuid, r.data)) := by
  intro rows rs h
  induction h with
  | nil => exact ⟨[], rfl, rfl⟩
  | cons h₁ h₂ ih =>
    rename_i row rec rows' rs'
    obtain ⟨out, hout, hmap⟩ := ih
    obtain ⟨huuid, hlot, hdec⟩ := h₁
    refine ⟨⟨lotUuid, row.uuid, rec.data⟩ :: out, ?_, ?_⟩
    · simp only [Record.loadRows, hdec, hout]
    · simp only [List.map_cons, hmap, huuid]

theorem Record.loadRows_ok_rel (key : Key Lot) (lotUuid : Nat) :
    ∀ (rows : List SqlRecord) (out : List Record),
      Record.loadRows key lotUuid rows = .ok out →
      List.Forall₂ (fun (row : SqlRecord) (r : Record) =>
        r.lot = lotUuid ∧ r.uuid = row.uuid ∧
        RecordData.decrypt ⟨row.data, row.nonce⟩ key = .ok r.data)
        rows out := by
  intro rows
  induction rows with
  | nil =>
    intro out h
    simp only [Record.loadRows, Except.ok.injEq] at h
    subst h
    exact .nil
  | cons row rest ih =>
    intro out h
    cases hd : RecordData.decrypt ⟨row.data, row.nonce⟩ key with
    | error e =>
      simp only [Record.loadRows, hd] at h
      exact (Except.noConfusion h)
    | ok data =>
      cases hr : Record.loadRows key lotUuid rest with
      | error e =>
        simp only [Record.loadRows, hd, hr] at h
        exact (Except.noConfusion h)
      | ok rs' =>
        simp only [Record.loadRows, hd, hr, Except.ok.injEq] at h
        subst h
        exact .cons ⟨rfl, rfl, hd⟩ (ih rs' hr)

theorem forall₂_rowDecryptsTo_uuid_map (key : Key Lot) :
    ∀ rows rs, List.Forall₂ (rowDecryptsTo key) rows rs →
      rows.map SqlRecord.uuid = rs.map Record.uuid := by
  intro rows rs h
  induction h with
  | nil => rfl
  | cons h₁ h₂ ih =>
    rename_i row rec rows' rs'
    simp only [List.map_cons, ih, h₁.1]

theorem forall₂_rowDecryptsTo_lot (key : Key Lot) (lu : Nat) :
    ∀ rows rs, List.Forall₂ (rowDecryptsTo key) rows rs →
      (∀ r ∈ rs, r.lot = lu) →
      ∀ row ∈ rows, row.lot = lu := by
  intro rows rs h
  induction h with
  | nil => intro _ row hrow; simp at hrow
  | cons h₁ h₂ ih =>
    rename_i row rec rows' rs'
    intro hall row' hrow'
    rcases List.mem_cons.mp hrow' with heq | hm
    · subst heq
      rw [h₁.2.1]
      exact hall rec (by simp)
    · exact ih (fun r hr => hall r (by simp [hr])) row' hm


/-- Claim C8 (amended): a missing Lot row and a Lot row without a
wrapping row for the requesting user both make `Lot::load` fail with
the same database row-not-found error (the code does not produce a
distinct NotAuthorized); and a successful load accounts for every
record row of the lot — each stored row decrypted, none silently
dropped. -/
theorem claim_C8_load_failure_modes :
    ∀ (db : Database) (name : String) (user : User),
      (SqlLot.selectByName db name = .error .rowNotFound →
        Lot.load db name user = .error (.database .rowNotFound)) ∧
      (∀ sl, SqlLot.selectByName db name = .ok sl →
        SqlUserLotKey.select db user.username sl.uuid =
          .error .rowNotFound →
        Lot.load db name user = .error (.database .rowNotFound)) ∧
      (∀ lot', Lot.load db name user = .ok lot' →
        ∃ sl rows, SqlLot.selectByName db name = .ok sl ∧
          SqlRecord.selectByLot db sl.uuid = .ok rows ∧
          lot'.records.length = rows.length ∧
          List.Forall₂ (fun (row : SqlRecord) (r : Record) =>
            r.lot = sl.uuid ∧ r.uuid = row.uuid ∧
            RecordData.decrypt ⟨row.data, row.nonce⟩ lot'.key = .ok r.data)
            rows lot'.records) := by
  intro db name user
  refine ⟨?_, ?_, ?_⟩
  · intro hmiss
    simp [Lot.load, hmiss]
  · intro sl hsel hmiss
    simp [Lot.load, hsel, hmiss]
  · intro lot' h
    simp only [Lot.load] at h
    cases hsel : SqlLot.selectByName db name with
    | error e =>
      simp only [hsel] at h
      exact (Except.noConfusion h)
    | ok sl =>
      simp only [hsel] at h
      cases hulk : SqlUserLotKey.select db user.username sl.uuid with
      | error e =>
        simp only [hulk] at h
        exact (Except.noConfusion h)
      | ok ulk =>
        simp only [hulk, Lot.decryptAndBuild] at h
        cases hdec : user.key.decrypt ⟨ulk.data, ulk.nonce⟩ with
        | error e =>
          simp only [hdec] at h
          exact (Except.noConfusion h)
        | ok keyBytes =>
          simp only [hdec, Record.loadAll, Lot.uuid_mk, Lot.key_mk] at h
          cases hrows : SqlRecord.selectByLot db sl.uuid with
          | error e =>
            simp only [hrows] at h
            exact (Except.noConfusion h)
          | ok rows =>
            simp only [hrows] at h
            cases hload : Record.loadRows (Key.fromBytes Lot keyBytes)
                sl.uuid rows with
            | error e =>
              simp only [hload] at h
              exact (Except.noConfusion h)
            | ok out =>
              simp only [hload, Except.ok.injEq] at h
              subst h
              have hrel := Record.loadRows_ok_rel
                (Key.fromBytes Lot keyBytes) sl.uuid rows out hload
              refine ⟨sl, rows, rfl, hrows, ?_, ?_⟩
              · simp only [Lot.records_withRecords]
                exact (List.Forall₂.length_eq hrel).symm
              · simp only [Lot.records_withRecords, Lot.key_withRecords,
                  Lot.key_mk]
                exact hrel

/-- Counterexample for claim C8 as stated: a database where the lot
row "main" exists but the requesting user has no wrapping row yields
exactly the same error value as a database with no lot row at all —
`Lot::load` does not distinguish the two cases with a NotAuthorized
error. -/
theorem claim_C8_counterexample :
    Lot.load ⟨true, [], [⟨1, "main"⟩], [], []⟩ "main"
        (User.mk "bob" [] ⟨[], []⟩ ⟨[1]⟩) =
      Lot.load ⟨true, [], [], [], []⟩ "main"
        (User.mk "bob" [] ⟨[], []⟩ ⟨[1]⟩) ∧
    Lot.load ⟨true, [], [⟨1, "main"⟩], [], []⟩ "main"
        (User.mk "bob" [] ⟨[], []⟩ ⟨[1]⟩) =
      .error (.database .rowNotFound) := by
  constructor
  · decide
  · decide

/-- Witness for the amended claim C8: the three branches exercised on
concrete databases — missing lot row, missing wrapping row, and a
fully populated lot loaded successfully. -/
theorem claim_C8_witness :
    Lot.load ⟨true, [], [], [], []⟩ "main"
        (User.mk "bob" [] ⟨[], []⟩ ⟨[1]⟩) =
      .error (.database .rowNotFound) ∧
    Lot.load ⟨true, [], [⟨1, "main"⟩], [], []⟩ "main"
        (User.mk "bob" [] ⟨[], []⟩ ⟨[1]⟩) =
      .error (.database .rowNotFound) ∧
    (∃ sl rows,
      SqlLot.selectByName
        ⟨true, [], [⟨1, "main"⟩],
          [⟨"bob", 1, aeadSeal [1] [9] [2], [9]⟩],
          [⟨1, 5, aeadSeal [2] (natToBytesLE NONCE_SIZE 0)
            (snapCompress (RecordData.plain "a" "b").encode),
            natToBytesLE NONCE_SIZE 0⟩]⟩ "main" = .ok sl ∧
      SqlRecord.selectByLot
        ⟨true, [], [⟨1, "main"⟩],
          [⟨"bob", 1, aeadSeal [1] [9] [2], [9]⟩],
          [⟨1, 5, aeadSeal [2] (natToBytesLE NONCE_SIZE 0)
            (snapCompress (RecordData.plain "a" "b").encode),
            natToBytesLE NONCE_SIZE 0⟩]⟩ sl.uuid = .ok rows ∧
      (Lot.mk 1 "main" [⟨1, 5, .plain "a" "b"⟩] ⟨[2]⟩).records.length =
        rows.length ∧
      List.Forall₂ (fun (row : SqlRecord) (r : Record) =>
        r.lot = sl.uuid ∧ r.uuid = row.uuid ∧
        RecordData.decrypt ⟨row.data, row.nonce⟩
          (Lot.mk 1 "main" [⟨1, 5, .plain "a" "b"⟩] ⟨[2]⟩).key = .ok r.data)
        rows (Lot.mk 1 "main" [⟨1, 5, .plain "a" "b"⟩] ⟨[2]⟩).records) :=
  ⟨(claim_C8_load_failure_modes ⟨true, [], [], [], []⟩ "main"
      (User.mk "bob" [] ⟨[], []⟩ ⟨[1]⟩)).1 (by decide),
    (claim_C8_load_failure_modes ⟨true, [], [⟨1, "main"⟩], [], []⟩ "main"
      (User.mk "bob" [] ⟨[], []⟩ ⟨[1]⟩)).2.1 ⟨1, "main"⟩
      (by decide) (by decide),
    (claim_C8_load_failure_modes
      ⟨true, [], [⟨1, "main"⟩],
        [⟨"bob", 1, aeadSeal [1] [9] [2], [9]⟩],
        [⟨1, 5, aeadSeal [2] (natToBytesLE NONCE_SIZE 0)
          (snapCompress (RecordData.plain "a" "b").encode),
          natToBytesLE NONCE_SIZE 0⟩]⟩ "main"
      (User.mk "bob" [] ⟨[], []⟩ ⟨[1]⟩)).2.2
      (Lot.mk 1 "main" [⟨1, 5, .plain "a" "b"⟩] ⟨[2]⟩) (by decide)⟩


/-- Claim C3: key rotation.  Starting from an empty store, save a lot
holding records for a user; replace the lot key by a freshly generated
one (distinct key bytes — the freshness idealization of the random
source) and save again.  The wrapped key bytes stored in the wrapping
table change, every record row is re-encrypted under the new current
lot key in that same save call, and reloading the lot by name for that
user returns all records with their payloads unchanged. -/
theorem claim_C3_key_rotation :
    ∀ (users₀ : List SqlUser) (u : User) (L : Lot) (k' : Key Lot)
      (rng₀ : OsRng),
      L.records ≠ [] →
      (∀ r ∈ L.records, r.lot = L.uuid) →
      (L.records.map Record.uuid).Nodup →
      k'.bytes ≠ L.key.bytes →
      ∃ db₁ rng₁ row₁ db₂ rng₂ row₂ lot',
        Lot.save L ⟨true, users₀, [], [], []⟩ u rng₀ =
          (.ok (L.uuid, db₁), rng₁) ∧
        SqlUserLotKey.select db₁ u.username L.uuid = .ok row₁ ∧
        Lot.save (L.withKey k') db₁ u rng₁ = (.ok (L.uuid, db₂), rng₂) ∧
        SqlUserLotKey.select db₂ u.username L.uuid = .ok row₂ ∧
        row₂.data ≠ row₁.data ∧
        List.Forall₂ (rowDecryptsTo k') db₂.records L.records ∧
        Lot.load db₂ L.name u = .ok lot' ∧
        lot'.records.map (fun r => (r.uuid, r.data)) =
          L.records.map (fun r => (r.uuid, r.data)) := by
  intro users₀ u L k' rng₀ hne hlot hnodup hkne
  have hup₁ : SqlLot.upsert ⟨L.uuid, L.name⟩ ⟨true, users₀, [], [], []⟩ =
      .ok (⟨L.uuid, L.name⟩, ⟨true, users₀, [⟨L.uuid, L.name⟩], [], []⟩) := by
    simp [SqlLot.upsert]
  have hwrap₁ : u.key.encrypt L.key.asBytes rng₀ =
      (.ok ⟨aeadSeal u.key.bytes (natToBytesLE NONCE_SIZE rng₀.counter)
          L.key.bytes,
        natToBytesLE NONCE_SIZE rng₀.counter⟩,
      OsRng.mk (rng₀.counter + 1)) := rfl
  have hulkup₁ : SqlUserLotKey.upsert
      ⟨u.username, L.uuid,
        aeadSeal u.key.bytes (natToBytesLE NONCE_SIZE rng₀.counter)
          L.key.bytes,
        natToBytesLE NONCE_SIZE rng₀.counter⟩
      ⟨true, users₀, [⟨L.uuid, L.name⟩], [], []⟩ =
      .ok (⟨u.username, L.uuid,
          aeadSeal u.key.bytes (natToBytesLE NONCE_SIZE rng₀.counter)
            L.key.bytes,
          natToBytesLE NONCE_SIZE rng₀.counter⟩,
        ⟨true, users₀, [⟨L.uuid, L.name⟩],
          [⟨u.username, L.uuid,
            aeadSeal u.key.bytes (natToBytesLE NONCE_SIZE rng₀.counter)
              L.key.bytes,
            natToBytesLE NONCE_SIZE rng₀.counter⟩], []⟩) := by
    simp [SqlUserLotKey.upsert]
  obtain ⟨newRows, rng₁, hsr₁, hrel₁⟩ :=
    Lot.saveRecords_fresh L L.records
      ⟨true, users₀, [⟨L.uuid, L.name⟩],
        [⟨u.username, L.uuid,
          aeadSeal u.key.bytes (natToBytesLE NONCE_SIZE rng₀.counter)
            L.key.bytes,
          natToBytesLE NONCE_SIZE rng₀.counter⟩], []⟩
      (OsRng.mk (rng₀.counter + 1)) rfl
      (by intro r _ row hrow; simp at hrow) hnodup
  have hsave₁ : Lot.save L ⟨true, users₀, [], [], []⟩ u rng₀ =
      (.ok (L.uuid, ⟨true, users₀, [⟨L.uuid, L.name⟩],
        [⟨u.username, L.uuid,
          aeadSeal u.key.bytes (natToBytesLE NONCE_SIZE rng₀.counter)
            L.key.bytes,
          natToBytesLE NONCE_SIZE rng₀.counter⟩], newRows⟩), rng₁) := by
    simp only [Lot.save, hup₁, hwrap₁, hulkup₁, hsr₁]
    simp
  have hselect₁ : SqlUserLotKey.select
      ⟨true, users₀, [⟨L.uuid, L.name⟩],
        [⟨u.username, L.uuid,
          aeadSeal u.key.bytes (natToBytesLE NONCE_SIZE rng₀.counter)
            L.key.bytes,
          natToBytesLE NONCE_SIZE rng₀.counter⟩], newRows⟩
      u.username L.uuid =
      .ok ⟨u.username, L.uuid,
        aeadSeal u.key.bytes (natToBytesLE NONCE_SIZE rng₀.counter)
          L.key.bytes,
        natToBytesLE NONCE_SIZE rng₀.counter⟩ := by
    simp [SqlUserLotKey.select]
  have hup₂ : SqlLot.upsert ⟨L.uuid, L.name⟩
      ⟨true, users₀, [⟨L.uuid, L.name⟩],
        [⟨u.username, L.uuid,
          aeadSeal u.key.bytes (natToBytesLE NONCE_SIZE rng₀.counter)
            L.key.bytes,
          natToBytesLE NONCE_SIZE rng₀.counter⟩], newRows⟩ =
      .ok (⟨L.uuid, L.name⟩,
        ⟨true, users₀, [⟨L.uuid, L.name⟩],
          [⟨u.username, L.uuid,
            aeadSeal u.key.bytes (natToBytesLE NONCE_SIZE rng₀.counter)
              L.key.bytes,
            natToBytesLE NONCE_SIZE rng₀.counter⟩], newRows⟩) := by
    simp [SqlLot.upsert]
  have hwrap₂ : u.key.encrypt k'.asBytes rng₁ =
      (.ok ⟨aeadSeal u.key.bytes (natToBytesLE NONCE_SIZE rng₁.counter)
          k'.bytes,
        natToBytesLE NONCE_SIZE rng₁.counter⟩,
      OsRng.mk (rng₁.counter + 1)) := rfl
  have hulkup₂ : SqlUserLotKey.upsert
      ⟨u.username, L.uuid,
        aeadSeal u.key.bytes (natToBytesLE NONCE_SIZE rng₁.counter)
          k'.bytes,
        natToBytesLE NONCE_SIZE rng₁.counter⟩
      ⟨true, users₀, [⟨L.uuid, L.name⟩],
        [⟨u.username, L.uuid,
          aeadSeal u.key.bytes (natToBytesLE NONCE_SIZE rng₀.counter)
            L.key.bytes,
          natToBytesLE NONCE_SIZE rng₀.counter⟩], newRows⟩ =
      .ok (⟨u.username, L.uuid,
          aeadSeal u.key.bytes (natToBytesLE NONCE_SIZE rng₁.counter)
            k'.bytes,
          natToBytesLE NONCE_SIZE rng₁.counter⟩,
        ⟨true, users₀, [⟨L.uuid, L.name⟩],
          [⟨u.username, L.uuid,
            aeadSeal u.key.bytes (natToBytesLE NONCE_SIZE rng₁.counter)
              k'.bytes,
            natToBytesLE NONCE_SIZE rng₁.counter⟩], newRows⟩) := by
    simp [SqlUserLotKey.upsert]
  obtain ⟨tbl₂', rng₂, hsr₂, hrel₂raw⟩ :=
    Lot.saveRecords_replace (L.withKey k') L.records [] newRows
      ⟨true, users₀, [⟨L.uuid, L.name⟩],
        [⟨u.username, L.uuid,
          aeadSeal u.key.bytes (natToBytesLE NONCE_SIZE rng₁.counter)
            k'.bytes,
          natToBytesLE NONCE_SIZE rng₁.counter⟩], newRows⟩
      (OsRng.mk (rng₁.counter + 1)) rfl (by simp)
      (by intro row hrow; simp at hrow)
      (forall₂_rowDecryptsTo_uuid_map L.key newRows L.records hrel₁)
      hnodup
  have hrel₂ : List.Forall₂ (rowDecryptsTo k') tbl₂' L.records := by
    simpa using hrel₂raw
  have hsave₂ : Lot.save (L.withKey k')
      ⟨true, users₀, [⟨L.uuid, L.name⟩],
        [⟨u.username, L.uuid,
          aeadSeal u.key.bytes (natToBytesLE NONCE_SIZE rng₀.counter)
            L.key.bytes,
          natToBytesLE NONCE_SIZE rng₀.counter⟩], newRows⟩ u rng₁ =
      (.ok (L.uuid, ⟨true, users₀, [⟨L.uuid, L.name⟩],
        [⟨u.username, L.uuid,
          aeadSeal u.key.bytes (natToBytesLE NONCE_SIZE rng₁.counter)
            k'.bytes,
          natToBytesLE NONCE_SIZE rng₁.counter⟩], tbl₂'⟩), rng₂) := by
    simp only [Lot.save, Lot.uuid_withKey, Lot.name_withKey,
      Lot.key_withKey, Lot.records_withKey, hup₂, hwrap₂, hulkup₂, hsr₂]
    simp
  have hselect₂ : SqlUserLotKey.select
      ⟨true, users₀, [⟨L.uuid, L.name⟩],
        [⟨u.username, L.uuid,
          aeadSeal u.key.bytes (natToBytesLE NONCE_SIZE rng₁.counter)
            k'.bytes,
          natToBytesLE NONCE_SIZE rng₁.counter⟩], tbl₂'⟩
      u.username L.uuid =
      .ok ⟨u.username, L.uuid,
        aeadSeal u.key.bytes (natToBytesLE NONCE_SIZE rng₁.counter)
          k'.bytes,
        natToBytesLE NONCE_SIZE rng₁.counter⟩ := by
    simp [SqlUserLotKey.select]
  have hdataNe :
      aeadSeal u.key.bytes (natToBytesLE NONCE_SIZE rng₁.counter)
        k'.bytes ≠
      aeadSeal u.key.bytes (natToBytesLE NONCE_SIZE rng₀.counter)
        L.key.bytes := by
    intro hc
    exact hkne (aeadSeal_inj hc).2.2
  have hselName : SqlLot.selectByName
      ⟨true, users₀, [⟨L.uuid, L.name⟩],
        [⟨u.username, L.uuid,
          aeadSeal u.key.bytes (natToBytesLE NONCE_SIZE rng₁.counter)
            k'.bytes,
          natToBytesLE NONCE_SIZE rng₁.counter⟩], tbl₂'⟩ L.name =
      .ok ⟨L.uuid, L.name⟩ := by
    simp [SqlLot.selectByName]
  have hdecKey : u.key.decrypt
      ⟨aeadSeal u.key.bytes (natToBytesLE NONCE_SIZE rng₁.counter)
        k'.bytes,
      natToBytesLE NONCE_SIZE rng₁.counter⟩ = .ok k'.bytes := by
    simp [Key.decrypt, aeadOpen_aeadSeal]
  have hfilter : tbl₂'.filter (fun r => r.lot = L.uuid) = tbl₂' := by
    rw [List.filter_eq_self]
    intro row hrow
    simp only [decide_eq_true_eq]
    exact forall₂_rowDecryptsTo_lot k' L.uuid tbl₂' L.records hrel₂
      hlot row hrow
  have hselRows : SqlRecord.selectByLot
      ⟨true, users₀, [⟨L.uuid, L.name⟩],
        [⟨u.username, L.uuid,
          aeadSeal u.key.bytes (natToBytesLE NONCE_SIZE rng₁.counter)
            k'.bytes,
          natToBytesLE NONCE_SIZE rng₁.counter⟩], tbl₂'⟩ L.uuid =
      .ok tbl₂' := by
    simp [SqlRecord.selectByLot, hfilter]
  obtain ⟨out, hloadRows, hmapOut⟩ :=
    Record.loadRows_of_forall₂ k' L.uuid tbl₂' L.records hrel₂
  have hload : Lot.load
      ⟨true, users₀, [⟨L.uuid, L.name⟩],
        [⟨u.username, L.uuid,
          aeadSeal u.key.bytes (natToBytesLE NONCE_SIZE rng₁.counter)
            k'.bytes,
          natToBytesLE NONCE_SIZE rng₁.counter⟩], tbl₂'⟩ L.name u =
      .ok ((Lot.mk L.uuid L.name [] k').withRecords out) := by
    simp only [Lot.load, hselName, hselect₂, Lot.decryptAndBuild, hdecKey,
      Key.fromBytes, Key.mk_bytes, Record.loadAll, Lot.uuid_mk, Lot.key_mk,
      hselRows, hloadRows]
  refine ⟨_, rng₁, _, _, rng₂, _,
    (Lot.mk L.uuid L.name [] k').withRecords out,
    hsave₁, hselect₁, hsave₂, hselect₂, hdataNe, hrel₂, hload, ?_⟩
  simpa using hmapOut


/-- Witness for claim C3: one user, one lot named "main" holding one
Plain record, keys `[3]` then `[4]`, starting from an empty store. -/
theorem claim_C3_witness :
    (⟨[4]⟩ : Key Lot).bytes ≠
      (Lot.mk 1 "main" [⟨1, 2, .plain "a" "b"⟩] ⟨[3]⟩).key.bytes ∧
    (∃ db₁ rng₁ row₁ db₂ rng₂ row₂ lot',
      Lot.save (Lot.mk 1 "main" [⟨1, 2, .plain "a" "b"⟩] ⟨[3]⟩)
          ⟨true, [], [], [], []⟩
          (User.mk "alice" [] ⟨[], []⟩ ⟨[7]⟩) ⟨0⟩ =
        (.ok (1, db₁), rng₁) ∧
      SqlUserLotKey.select db₁ "alice" 1 = .ok row₁ ∧
      Lot.save ((Lot.mk 1 "main" [⟨1, 2, .plain "a" "b"⟩] ⟨[3]⟩).withKey
          ⟨[4]⟩) db₁ (User.mk "alice" [] ⟨[], []⟩ ⟨[7]⟩) rng₁ =
        (.ok (1, db₂), rng₂) ∧
      SqlUserLotKey.select db₂ "alice" 1 = .ok row₂ ∧
      row₂.data ≠ row₁.data ∧
      List.Forall₂ (rowDecryptsTo ⟨[4]⟩) db₂.records
        [⟨1, 2, .plain "a" "b"⟩] ∧
      Lot.load db₂ "main" (User.mk "alice" [] ⟨[], []⟩ ⟨[7]⟩) =
        .ok lot' ∧
      lot'.records.map (fun r => (r.uuid, r.data)) =
        ([⟨1, 2, .plain "a" "b"⟩] : List Record).map
          (fun r => (r.uuid, r.data))) :=
  ⟨by decide,
    claim_C3_key_rotation [] (User.mk "alice" [] ⟨[], []⟩ ⟨[7]⟩)
      (Lot.mk 1 "main" [⟨1, 2, .plain "a" "b"⟩] ⟨[3]⟩) ⟨[4]⟩ ⟨0⟩
      (by decide) (by decide) (by decide) (by decide)⟩

end Valet
